import Mathlib

/-!
Verification of `actions/doxygen/scripts/patch_doxyfile.py`.

The script is embedded shallowly: file contents are `String`s, the
filesystem visible to the script is a `World` record (target file,
`CMakeLists.txt`, `README.md`, each `Option String` where `none` means the
file does not exist), and every Python regular-expression search used by
the script is translated into an executable Lean function on `List Char`
with the same backtracking semantics (leftmost start position; greedy
star with backtracking, which for `[^)]*VERSION` means the last viable
`VERSION` occurrence).  Python's `\d` and `re.IGNORECASE` are modelled at
ASCII granularity, which covers every character class the script's fixed
patterns use.
-/

/-- ASCII whitespace set of Python's `\s` and `str.strip`:
space, tab, newline, carriage return, vertical tab, form feed. -/
def pyIsSpace (c : Char) : Bool :=
  c = ' ' || c = '\t' || c = '\n' || c = '\r' || c = '\x0b' || c = '\x0c'

/-- Nonempty and all ASCII digits (one `\d+` group). -/
def digitsNE (l : List Char) : Bool :=
  !l.isEmpty && l.all Char.isDigit

/-- Match `pat` literally at the head of `l`; on success return the rest. -/
def litMatch : List Char → List Char → Option (List Char)
  | [], l => some l
  | _ :: _, [] => none
  | p :: ps, c :: cs => if c = p then litMatch ps cs else none

/-- Match `pat` at the head of `l` up to ASCII case (Python `re.IGNORECASE`
on the script's all-letter patterns); on success return the rest. -/
def ciMatch : List Char → List Char → Option (List Char)
  | [], l => some l
  | _ :: _, [] => none
  | p :: ps, c :: cs => if c.toLower = p.toLower then ciMatch ps cs else none

/-- Greedy `\d+`: the maximal nonempty digit run and the remainder. -/
def digits1 (l : List Char) : Option (List Char × List Char) :=
  if (l.takeWhile Char.isDigit).isEmpty then none
  else some (l.takeWhile Char.isDigit, l.dropWhile Char.isDigit)

/-- The next character (if any) is not a digit, so a greedy `\d+` ending
here cannot be extended. -/
def headNotDigit : List Char → Bool
  | [] => true
  | c :: _ => !c.isDigit

/-- Greedy match of `\d+\.\d+\.\d+` at the head of `l`: the matched
characters and the remainder.  (All the script's patterns follow each
`\d+` with a non-digit, so greedy matching is the only viable parse.) -/
def matchVer3 (l : List Char) : Option (List Char × List Char) :=
  match digits1 l with
  | none => none
  | some (a, r1) =>
    match r1 with
    | [] => none
    | c1 :: r2 =>
      if c1 = '.' then
        match digits1 r2 with
        | none => none
        | some (b, r3) =>
          match r3 with
          | [] => none
          | c2 :: r4 =>
            if c2 = '.' then
              match digits1 r4 with
              | none => none
              | some (c, r5) => some (a ++ '.' :: b ++ '.' :: c, r5)
            else none
      else none

/-- Python's `$` outside MULTILINE: end of string, or just before a single
trailing newline. -/
def endsOK : List Char → Bool
  | [] => true
  | [c] => c = '\n'
  | _ :: _ :: _ => false

/-- The tail `(?:\.\d+)?$` of the version pattern. -/
def versionTail (l : List Char) : Bool :=
  endsOK l ||
    match l with
    | [] => false
    | c :: r =>
      c = '.' &&
        match digits1 r with
        | some (_, rest) => endsOK rest
        | none => false

/-- `DoxyfileUpdater.validate_version`:
`bool(re.match(r'^\d+\.\d+\.\d+(?:\.\d+)?$', version))`. -/
def validate_version (s : String) : Bool :=
  match matchVer3 s.data with
  | some (_, rest) => versionTail rest
  | none => false

/-- Python `f.readline()`: everything up to and including the first
newline (the whole string when there is none). -/
def readline1 : List Char → List Char
  | [] => []
  | c :: r => if c = '\n' then [c] else c :: readline1 r

/-- Remove the maximal whitespace suffix. -/
def dropTrailing (p : Char → Bool) (l : List Char) : List Char :=
  (l.reverse.dropWhile p).reverse

/-- Python `str.strip()` (no argument): remove leading and trailing
whitespace. -/
def pyStrip (l : List Char) : List Char :=
  dropTrailing pyIsSpace (l.dropWhile pyIsSpace)

/-- Try `VERSION\s+(\d+\.\d+\.\d+)` at the head of `l` (case-insensitive
`VERSION`); return the captured group. -/
def tryVersionHere (l : List Char) : Option (List Char) :=
  match ciMatch "VERSION".data l with
  | none => none
  | some r =>
    match r with
    | [] => none
    | x :: _ =>
      if pyIsSpace x then
        match matchVer3 (r.dropWhile pyIsSpace) with
        | some (v, _) => some v
        | none => none
      else none

/-- Greedy `[^)]*VERSION\s+(\d+\.\d+\.\d+)`: the regex engine gives
`[^)]*` as much as possible and backtracks, so the LAST position inside
the window where `VERSION\s+\d+\.\d+\.\d+` matches wins. -/
def scanLastVersion : List Char → Option (List Char)
  | [] => none
  | c :: rest =>
    match scanLastVersion rest with
    | some v => some v
    | none => tryVersionHere (c :: rest)

/-- Try the whole pattern `PROJECT\s*\([^)]*VERSION\s+(\d+\.\d+\.\d+)[^)]*\)`
at the head of `l` (flags `re.MULTILINE | re.IGNORECASE`; MULTILINE is
inert for this pattern).  `[^)]*` cannot cross a `')'`, so the search
window is the maximal `')'`-free run after `'('`, and the final `\)`
requires that run to be terminated by a `')'`. -/
def matchProjectAt (l : List Char) : Option (List Char) :=
  match ciMatch "PROJECT".data l with
  | none => none
  | some r1 =>
    match r1.dropWhile pyIsSpace with
    | [] => none
    | c :: r3 =>
      if c = '(' then
        if (r3.dropWhile (fun x => x ≠ ')')).isEmpty then none
        else scanLastVersion (r3.takeWhile (fun x => x ≠ ')'))
      else none

/-- `re.search` of the PROJECT/VERSION pattern: leftmost start position. -/
def searchProjectVersion : List Char → Option (List Char)
  | [] => none
  | c :: rest =>
    match matchProjectAt (c :: rest) with
    | some v => some v
    | none => searchProjectVersion rest

/-- The tail `"\s*\)` of the CPPFIX pattern after the captured digits:
a closing quote, optional whitespace, then `')'`; on success return the
capture `d`. -/
def cppFixTail (d : List Char) (r5 : List Char) : Option (List Char) :=
  match r5 with
  | [] => none
  | c2 :: r6 =>
    if c2 = '"' then
      match r6.dropWhile pyIsSpace with
      | [] => none
      | c3 :: _ => if c3 = ')' then some d else none
    else none

/-- Try `SET\s*\(VERSION_CPPFIX\s*"(\d+)"\s*\)` at the head of `l`.
This second search is performed WITHOUT `re.IGNORECASE`, so `SET` and
`VERSION_CPPFIX` must match exactly. -/
def matchCppFixAt (l : List Char) : Option (List Char) :=
  match litMatch "SET".data l with
  | none => none
  | some r1 =>
    match r1.dropWhile pyIsSpace with
    | [] => none
    | c0 :: r2 =>
      if c0 = '(' then
        match litMatch "VERSION_CPPFIX".data r2 with
        | none => none
        | some r3 =>
          match r3.dropWhile pyIsSpace with
          | [] => none
          | c1 :: r4 =>
            if c1 = '"' then
              match digits1 r4 with
              | none => none
              | some (d, r5) => cppFixTail d r5
            else none
      else none

/-- `re.search` of the CPPFIX pattern: leftmost start position. -/
def searchCppFix : List Char → Option (List Char)
  | [] => none
  | c :: rest =>
    match matchCppFixAt (c :: rest) with
    | some d => some d
    | none => searchCppFix rest

/-- Error taxonomy of the script (each constructor is one `raise`). -/
inductive Err where
  | InvalidVersionFormat (v : String)
  | VersionNotFound
  | SourceFileMissingCMake
  | SourceFileMissingReadme
  | EmptyProjectName
  | TargetFileMissing
  deriving DecidableEq, Repr

/-- `DoxyfileUpdater._parse_project_name`: first line of `README.md`,
stripped, with every `'#'` removed (`str.replace('#','')`), stripped
again; empty result is an error. -/
def parse_project_name (readme : Option String) : Except Err String :=
  match readme with
  | none => .error .SourceFileMissingReadme
  | some content =>
    if (pyStrip ((pyStrip (readline1 content.data)).filter
        (fun c => c ≠ '#'))).isEmpty then
      .error .EmptyProjectName
    else
      .ok ⟨pyStrip ((pyStrip (readline1 content.data)).filter
        (fun c => c ≠ '#'))⟩

/-- `version = f"{version}.{cpp_fix_match.group(1)}"` when the CPPFIX
search matched, the plain PROJECT version otherwise. -/
def composeVersion (v3 : List Char) (fix? : Option (List Char)) : List Char :=
  match fix? with
  | some fix => v3 ++ '.' :: fix
  | none => v3

/-- `DoxyfileUpdater._parse_cmake_version`: PROJECT/VERSION search, the
optional case-sensitive CPPFIX search, then the defensive re-validation. -/
def parse_cmake_version (cmake : Option String) : Except Err String :=
  match cmake with
  | none => .error .SourceFileMissingCMake
  | some content =>
    match searchProjectVersion content.data with
    | none => .error .VersionNotFound
    | some v3 =>
      if validate_version ⟨composeVersion v3 (searchCppFix content.data)⟩ then
        .ok ⟨composeVersion v3 (searchCppFix content.data)⟩
      else .error (.InvalidVersionFormat ⟨composeVersion v3 (searchCppFix content.data)⟩)

/-- Python `str.replace` worker.  `fuel` is an upper bound on the number
of remaining characters; the top-level wrapper passes `s.length`, which
always suffices for a nonempty pattern. -/
def replaceGo (pat rep : List Char) : Nat → List Char → List Char
  | 0, s => s
  | _ + 1, [] => []
  | fuel + 1, c :: rest =>
    match litMatch pat (c :: rest) with
    | some r => rep ++ replaceGo pat rep fuel r
    | none => c :: replaceGo pat rep fuel rest

/-- Python `s.replace(pat, rep)` for a nonempty `pat` (both call sites in
the script pass a fixed nonempty placeholder token): replace every
occurrence, scanning left to right, without rescanning replacements. -/
def pyReplaceL (s pat rep : List Char) : List Char :=
  if pat.isEmpty then s else replaceGo pat rep s.length s

/-- `content.replace(pat, rep)` on `String`s. -/
def pyReplace (s pat rep : String) : String :=
  ⟨pyReplaceL s.data pat.data rep.data⟩

/-- Does `pat` occur as a contiguous substring?  (Nonempty `pat`.) -/
def occursIn (pat : List Char) : List Char → Bool
  | [] => false
  | c :: rest => (litMatch pat (c :: rest)).isSome || occursIn pat rest

/-- The placeholder token replaced by the resolved version. -/
def versionToken : String := "%PROJECT_VERSION%"

/-- The placeholder token replaced by the resolved project name. -/
def nameToken : String := "%PROJECT_NAME%"

/-- The filesystem the script sees: the target file named on the command
line, `CMakeLists.txt` and `README.md` in the working directory.  `none`
means the file does not exist. -/
structure World where
  target : Option String
  cmake : Option String
  readme : Option String
  deriving DecidableEq, Repr

/-- Lines 112–117 of `update_doxyfile`:
`if version and not self.validate_version(version): raise ...` followed by
`if not version: version = self._parse_cmake_version(Path("CMakeLists.txt"))`.
A `None` or empty-string argument is falsy in Python, so both fall back
to the CMake parse. -/
def resolveVersion (cmake : Option String) (version? : Option String) :
    Except Err String :=
  match version? with
  | some s =>
    if s = "" then parse_cmake_version cmake
    else if validate_version s then .ok s
    else .error (.InvalidVersionFormat s)
  | none => parse_cmake_version cmake

/-- `DoxyfileUpdater.update_doxyfile`: resolve the version, then the
project name, then check that the target exists, then read it, replace
`%PROJECT_VERSION%` and (in the updated text) `%PROJECT_NAME%`, and write
the result back.  An error result models a raised exception; every raise
in the source happens before the single `write_text` call, so an error
leaves the world unchanged. -/
def update_doxyfile (w : World) (version? : Option String) : Except Err World :=
  match resolveVersion w.cmake version? with
  | .error e => .error e
  | .ok version =>
    match parse_project_name w.readme with
    | .error e => .error e
    | .ok project_name =>
      match w.target with
      | none => .error .TargetFileMissing
      | some content =>
        .ok { w with
          target := some (pyReplace (pyReplace content versionToken version)
            nameToken project_name) }

/-- The content of the target file after a run: updated on success,
untouched when the script raised (the only write in the source is the
final `write_text`, and every modelled error is raised before it). -/
def finalTarget (w : World) (version? : Option String) : Option String :=
  match update_doxyfile w version? with
  | .ok w' => w'.target
  | .error _ => w.target

/-- `D.D.D` where each `D` is one or more digits (the spec's three
component dotted shape). -/
def Ver3 (v : List Char) : Prop :=
  ∃ a b c : List Char, digitsNE a = true ∧ digitsNE b = true ∧
    digitsNE c = true ∧ v = a ++ '.' :: b ++ '.' :: c

/-- The spec's version shape, written from its words: `D.D.D` or
`D.D.D.D` where each `D` is one or more digits — nothing else. -/
def VersionShape (l : List Char) : Prop :=
  Ver3 l ∨ ∃ v d : List Char, Ver3 v ∧ digitsNE d = true ∧ l = v ++ '.' :: d

/-! ### Lemmas about the digit/version parsers -/

theorem digitsNE_iff {l : List Char} :
    digitsNE l = true ↔ l ≠ [] ∧ ∀ x ∈ l, x.isDigit = true := by
  simp [digitsNE, List.isEmpty_iff, List.all_eq_true]

theorem digits1_sound {l d r : List Char} (h : digits1 l = some (d, r)) :
    l = d ++ r ∧ digitsNE d = true := by
  unfold digits1 at h
  split at h
  · exact absurd h (by simp)
  · rename_i he
    injection h with hpair
    injection hpair with h1 h2
    subst h1; subst h2
    refine ⟨(List.takeWhile_append_dropWhile _ _).symm, ?_⟩
    rw [digitsNE_iff]
    refine ⟨fun hnil => he (by simp [hnil]), fun x hx => List.mem_takeWhile_imp hx⟩

theorem digits1_complete {a r : List Char} (ha : digitsNE a = true)
    (hr : headNotDigit r = true) : digits1 (a ++ r) = some (a, r) := by
  obtain ⟨hne, hdig⟩ := digitsNE_iff.mp ha
  have htw : (a ++ r).takeWhile Char.isDigit = a := by
    rw [List.takeWhile_append_of_pos hdig]
    cases r with
    | nil => simp
    | cons c t =>
      simp only [headNotDigit, Bool.not_eq_true'] at hr
      simp [List.takeWhile_cons, hr]
  have hdw : (a ++ r).dropWhile Char.isDigit = r := by
    rw [List.dropWhile_append_of_pos hdig]
    cases r with
    | nil => simp
    | cons c t =>
      simp only [headNotDigit, Bool.not_eq_true'] at hr
      simp [List.dropWhile_cons, hr]
  unfold digits1
  rw [htw, hdw]
  simp [List.isEmpty_iff, hne]

theorem matchVer3_sound {l m rest : List Char}
    (h : matchVer3 l = some (m, rest)) : l = m ++ rest ∧ Ver3 m := by
  unfold matchVer3 at h
  split at h
  · exact absurd h (by simp)
  · rename_i a r1 h1
    split at h
    · exact absurd h (by simp)
    · rename_i c1 r2
      split at h
      · rename_i hc1
        split at h
        · exact absurd h (by simp)
        · rename_i b r3 h2
          split at h
          · exact absurd h (by simp)
          · rename_i c2 r4
            split at h
            · rename_i hc2
              split at h
              · exact absurd h (by simp)
              · rename_i c r5 h3
                injection h with hpair
                injection hpair with hm hrest
                subst hm; subst hrest; subst hc1; subst hc2
                obtain ⟨hl1, ha⟩ := digits1_sound h1
                obtain ⟨hl2, hb⟩ := digits1_sound h2
                obtain ⟨hl3, hc⟩ := digits1_sound h3
                constructor
                · rw [hl1, hl2, hl3]; simp
                · exact ⟨a, b, c, ha, hb, hc, rfl⟩
            · exact absurd h (by simp)
      · exact absurd h (by simp)

theorem matchVer3_complete {a b c r : List Char} (ha : digitsNE a = true)
    (hb : digitsNE b = true) (hc : digitsNE c = true)
    (hr : headNotDigit r = true) :
    matchVer3 (a ++ '.' :: (b ++ '.' :: (c ++ r))) =
      some (a ++ '.' :: b ++ '.' :: c, r) := by
  unfold matchVer3
  rw [digits1_complete ha (by simp [headNotDigit])]
  simp only [if_pos rfl]
  rw [digits1_complete hb (by simp [headNotDigit])]
  simp only [if_pos rfl]
  rw [digits1_complete hc hr]
  simp

theorem endsOK_cases {l : List Char} (h : endsOK l = true) :
    l = [] ∨ l = ['\n'] := by
  match l with
  | [] => exact Or.inl rfl
  | [c] =>
    simp only [endsOK, decide_eq_true_eq] at h
    exact Or.inr (by rw [h])
  | _ :: _ :: _ => exact absurd h (by simp [endsOK])

theorem versionTail_cases {l : List Char} (h : versionTail l = true) :
    (l = [] ∨ l = ['\n']) ∨
      ∃ d rest2 : List Char, l = '.' :: (d ++ rest2) ∧ digitsNE d = true ∧
        (rest2 = [] ∨ rest2 = ['\n']) := by
  unfold versionTail at h
  rw [Bool.or_eq_true] at h
  cases h with
  | inl h => exact Or.inl (endsOK_cases h)
  | inr h =>
    cases l with
    | nil => exact absurd h (by simp)
    | cons c r =>
      rw [Bool.and_eq_true, decide_eq_true_eq] at h
      obtain ⟨hc, h⟩ := h
      subst hc
      cases h2 : digits1 r with
      | none => rw [h2] at h; exact absurd h (by simp)
      | some dr =>
        obtain ⟨d, rest2⟩ := dr
        rw [h2] at h
        obtain ⟨hr, hd⟩ := digits1_sound h2
        exact Or.inr ⟨d, rest2, by rw [hr], hd, endsOK_cases h⟩

theorem ver3_validate {v : List Char} (h : Ver3 v) :
    validate_version ⟨v⟩ = true := by
  obtain ⟨a, b, c, ha, hb, hc, hv⟩ := h
  have hm := matchVer3_complete (r := []) ha hb hc (by simp [headNotDigit])
  unfold validate_version
  show (match matchVer3 v with
        | some (_, rest) => versionTail rest
        | none => false) = true
  rw [hv]
  rw [show a ++ '.' :: b ++ '.' :: c = a ++ '.' :: (b ++ '.' :: (c ++ [])) by simp]
  rw [hm]
  simp [versionTail, endsOK]

theorem ver3_fix_validate {v d : List Char} (h : Ver3 v)
    (hd : digitsNE d = true) : validate_version ⟨v ++ '.' :: d⟩ = true := by
  obtain ⟨a, b, c, ha, hb, hc, hv⟩ := h
  have hm := matchVer3_complete (r := '.' :: d) ha hb hc (by simp [headNotDigit])
  unfold validate_version
  show (match matchVer3 (v ++ '.' :: d) with
        | some (_, rest) => versionTail rest
        | none => false) = true
  rw [hv]
  rw [show (a ++ '.' :: b ++ '.' :: c) ++ '.' :: d
        = a ++ '.' :: (b ++ '.' :: (c ++ '.' :: d)) by simp]
  rw [hm]
  have hdig : digits1 d = some (d, []) := by
    have := digits1_complete (r := []) hd (by simp [headNotDigit])
    simpa using this
  have hne : d ≠ [] := (digitsNE_iff.mp hd).1
  cases d with
  | nil => exact absurd rfl hne
  | cons x xs =>
    show versionTail ('.' :: x :: xs) = true
    unfold versionTail
    simp [endsOK, hdig]

theorem ver3_nl_validate {v : List Char} (h : Ver3 v) :
    validate_version ⟨v ++ ['\n']⟩ = true := by
  obtain ⟨a, b, c, ha, hb, hc, hv⟩ := h
  have hm := matchVer3_complete (r := ['\n']) ha hb hc (by simp [headNotDigit])
  unfold validate_version
  show (match matchVer3 (v ++ ['\n']) with
        | some (_, rest) => versionTail rest
        | none => false) = true
  rw [hv]
  rw [show (a ++ '.' :: b ++ '.' :: c) ++ ['\n']
        = a ++ '.' :: (b ++ '.' :: (c ++ ['\n'])) by simp]
  rw [hm]
  simp [versionTail, endsOK]

theorem ver3_fix_nl_validate {v d : List Char} (h : Ver3 v)
    (hd : digitsNE d = true) :
    validate_version ⟨(v ++ '.' :: d) ++ ['\n']⟩ = true := by
  obtain ⟨a, b, c, ha, hb, hc, hv⟩ := h
  have hm := matchVer3_complete (r := '.' :: (d ++ ['\n'])) ha hb hc
    (by simp [headNotDigit])
  unfold validate_version
  show (match matchVer3 ((v ++ '.' :: d) ++ ['\n']) with
        | some (_, rest) => versionTail rest
        | none => false) = true
  rw [hv]
  rw [show ((a ++ '.' :: b ++ '.' :: c) ++ '.' :: d) ++ ['\n']
        = a ++ '.' :: (b ++ '.' :: (c ++ '.' :: (d ++ ['\n']))) by simp]
  rw [hm]
  have hdig : digits1 (d ++ ['\n']) = some (d, ['\n']) :=
    digits1_complete hd (by simp [headNotDigit])
  have hne : d ≠ [] := (digitsNE_iff.mp hd).1
  cases d with
  | nil => exact absurd rfl hne
  | cons x xs =>
    show versionTail ('.' :: ((x :: xs) ++ ['\n'])) = true
    unfold versionTail
    simp only [List.cons_append] at hdig ⊢
    simp [endsOK, hdig]

theorem validate_sound {s : String} (h : validate_version s = true) :
    VersionShape s.data ∨ ∃ m : List Char, s.data = m ++ ['\n'] ∧ VersionShape m := by
  unfold validate_version at h
  split at h
  · rename_i m rest heq
    obtain ⟨hsd, hver⟩ := matchVer3_sound heq
    rcases versionTail_cases h with (hr | hr) | ⟨d, rest2, hrest, hd, hr2⟩
    · subst hr
      exact Or.inl (Or.inl (by rw [hsd, List.append_nil]; exact hver))
    · subst hr
      exact Or.inr ⟨m, hsd, Or.inl hver⟩
    · subst hrest
      cases hr2 with
      | inl h2 =>
        subst h2
        refine Or.inl (Or.inr ⟨m, d, hver, hd, ?_⟩)
        rw [hsd]; simp
      | inr h2 =>
        subst h2
        refine Or.inr ⟨m ++ '.' :: d, ?_, Or.inr ⟨m, d, hver, hd, rfl⟩⟩
        rw [hsd]; simp
  · exact absurd h (by simp)

theorem validate_complete {s : String}
    (h : VersionShape s.data ∨ ∃ m : List Char, s.data = m ++ ['\n'] ∧ VersionShape m) :
    validate_version s = true := by
  obtain ⟨sd⟩ := s
  have hds : String.data ⟨sd⟩ = sd := rfl
  rw [hds] at h
  rcases h with (hver | ⟨v, d, hv, hd, heq⟩) | ⟨m, heq, hm⟩
  · exact ver3_validate hver
  · subst heq
    exact ver3_fix_validate hv hd
  · subst heq
    rcases hm with hver | ⟨v, d, hv, hd, heq⟩
    · exact ver3_nl_validate hver
    · subst heq
      exact ver3_fix_nl_validate hv hd

/-! ### Soundness of the PROJECT/VERSION and CPPFIX searches -/

theorem tryVersionHere_sound {l v : List Char}
    (h : tryVersionHere l = some v) : Ver3 v := by
  unfold tryVersionHere at h
  split at h
  · exact absurd h (by simp)
  · rename_i r _
    split at h
    · exact absurd h (by simp)
    · rename_i x t
      split at h
      · split at h
        · rename_i pr heq
          injection h with h'
          subst h'
          exact (matchVer3_sound heq).2
        · exact absurd h (by simp)
      · exact absurd h (by simp)

theorem scanLastVersion_sound {l v : List Char}
    (h : scanLastVersion l = some v) : Ver3 v := by
  induction l with
  | nil => exact absurd h (by simp [scanLastVersion])
  | cons c rest ih =>
    unfold scanLastVersion at h
    split at h
    · rename_i v' hv'
      injection h with h'
      subst h'
      exact ih hv'
    · exact tryVersionHere_sound h

theorem matchProjectAt_sound {l v : List Char}
    (h : matchProjectAt l = some v) : Ver3 v := by
  unfold matchProjectAt at h
  split at h
  · exact absurd h (by simp)
  · rename_i r1 _
    split at h
    · exact absurd h (by simp)
    · rename_i c r3
      split at h
      · split at h
        · exact absurd h (by simp)
        · exact scanLastVersion_sound h
      · exact absurd h (by simp)

theorem searchProjectVersion_sound {l v : List Char}
    (h : searchProjectVersion l = some v) : Ver3 v := by
  induction l with
  | nil => exact absurd h (by simp [searchProjectVersion])
  | cons c rest ih =>
    unfold searchProjectVersion at h
    split at h
    · rename_i v' hv'
      injection h with h'
      subst h'
      exact matchProjectAt_sound hv'
    · exact ih h

theorem cppFixTail_sound {d r5 d2 : List Char}
    (h : cppFixTail d r5 = some d2) : d2 = d := by
  unfold cppFixTail at h
  split at h
  · exact absurd h (by simp)
  · rename_i c2 r6
    split at h
    · split at h
      · exact absurd h (by simp)
      · rename_i c3 _
        split at h
        · injection h with h'
          exact h'.symm
        · exact absurd h (by simp)
    · exact absurd h (by simp)

theorem matchCppFixAt_sound {l d : List Char}
    (h : matchCppFixAt l = some d) : digitsNE d = true := by
  unfold matchCppFixAt at h
  split at h
  · exact absurd h (by simp)
  · rename_i r1 _
    split at h
    · exact absurd h (by simp)
    · rename_i c0 r2
      split at h
      · split at h
        · exact absurd h (by simp)
        · rename_i r3 _
          split at h
          · exact absurd h (by simp)
          · rename_i c1 r4
            split at h
            · split at h
              · exact absurd h (by simp)
              · rename_i heq
                have h2 := cppFixTail_sound h
                subst h2
                exact (digits1_sound heq).2
            · exact absurd h (by simp)
      · exact absurd h (by simp)

theorem searchCppFix_sound {l d : List Char}
    (h : searchCppFix l = some d) : digitsNE d = true := by
  induction l with
  | nil => exact absurd h (by simp [searchCppFix])
  | cons c rest ih =>
    unfold searchCppFix at h
    split at h
    · rename_i d' hd'
      injection h with h'
      subst h'
      exact matchCppFixAt_sound hd'
    · exact ih h

theorem compose_validate {content : String} {v3 : List Char}
    (h : searchProjectVersion content.data = some v3) :
    validate_version ⟨composeVersion v3 (searchCppFix content.data)⟩ = true := by
  have hv : Ver3 v3 := searchProjectVersion_sound h
  cases hf : searchCppFix content.data with
  | none => simpa [composeVersion] using ver3_validate hv
  | some fix =>
    have hd := searchCppFix_sound hf
    simpa [composeVersion] using ver3_fix_validate hv hd

theorem parse_cmake_ok {content : String} {v3 : List Char}
    (h : searchProjectVersion content.data = some v3) :
    parse_cmake_version (some content) =
      .ok ⟨composeVersion v3 (searchCppFix content.data)⟩ := by
  unfold parse_cmake_version
  show (match searchProjectVersion content.data with
    | none => Except.error Err.VersionNotFound
    | some v3 =>
      if validate_version ⟨composeVersion v3 (searchCppFix content.data)⟩ then
        Except.ok (⟨composeVersion v3 (searchCppFix content.data)⟩ : String)
      else Except.error (Err.InvalidVersionFormat
        ⟨composeVersion v3 (searchCppFix content.data)⟩)) =
    Except.ok ⟨composeVersion v3 (searchCppFix content.data)⟩
  rw [h]
  show (if validate_version ⟨composeVersion v3 (searchCppFix content.data)⟩ then
      Except.ok (⟨composeVersion v3 (searchCppFix content.data)⟩ : String)
    else Except.error (Err.InvalidVersionFormat
      ⟨composeVersion v3 (searchCppFix content.data)⟩)) =
    Except.ok ⟨composeVersion v3 (searchCppFix content.data)⟩
  rw [compose_validate h]
  simp

theorem parse_cmake_notfound {content : String}
    (h : searchProjectVersion content.data = none) :
    parse_cmake_version (some content) = .error .VersionNotFound := by
  unfold parse_cmake_version
  show (match searchProjectVersion content.data with
    | none => Except.error Err.VersionNotFound
    | some v3 =>
      if validate_version ⟨composeVersion v3 (searchCppFix content.data)⟩ then
        Except.ok (⟨composeVersion v3 (searchCppFix content.data)⟩ : String)
      else Except.error (Err.InvalidVersionFormat
        ⟨composeVersion v3 (searchCppFix content.data)⟩)) =
    Except.error Err.VersionNotFound
  rw [h]

/-! ### Lemmas about stripping and replacing -/

theorem dropTrailing_append_pos {p : Char → Bool} {m suf : List Char}
    (h : ∀ c ∈ suf, p c = true) :
    dropTrailing p (m ++ suf) = dropTrailing p m := by
  unfold dropTrailing
  rw [List.reverse_append]
  rw [List.dropWhile_append_of_pos (fun c hc => h c (List.mem_reverse.mp hc))]

theorem dropTrailing_eq_nil_iff {p : Char → Bool} {l : List Char} :
    dropTrailing p l = [] ↔ ∀ c ∈ l, p c = true := by
  unfold dropTrailing
  rw [List.reverse_eq_nil_iff, List.dropWhile_eq_nil_iff]
  constructor
  · exact fun h c hc => h c (List.mem_reverse.mpr hc)
  · exact fun h c hc => h c (List.mem_reverse.mp hc)

theorem dropTrailing_decomp (p : Char → Bool) (l : List Char) :
    ∃ suf : List Char, l = dropTrailing p l ++ suf ∧ ∀ c ∈ suf, p c = true := by
  refine ⟨(l.reverse.takeWhile p).reverse, ?_, ?_⟩
  · have h2 : l = (List.takeWhile p l.reverse ++ List.dropWhile p l.reverse).reverse := by
      rw [List.takeWhile_append_dropWhile, List.reverse_reverse]
    rw [List.reverse_append] at h2
    exact h2
  · intro c hc
    exact List.mem_takeWhile_imp (List.mem_reverse.mp hc)

theorem pyStrip_decomp (l : List Char) :
    ∃ pre suf : List Char, l = pre ++ (pyStrip l ++ suf) ∧
      (∀ c ∈ pre, pyIsSpace c = true) ∧ ∀ c ∈ suf, pyIsSpace c = true := by
  obtain ⟨suf, hsuf, hws⟩ := dropTrailing_decomp pyIsSpace (l.dropWhile pyIsSpace)
  refine ⟨l.takeWhile pyIsSpace, suf, ?_, ?_, hws⟩
  · have h0 : pyStrip l = dropTrailing pyIsSpace (l.dropWhile pyIsSpace) := rfl
    rw [h0, ← hsuf, List.takeWhile_append_dropWhile]
  · exact fun c hc => List.mem_takeWhile_imp hc

theorem pyStrip_eq_nil_iff {l : List Char} :
    pyStrip l = [] ↔ ∀ c ∈ l, pyIsSpace c = true := by
  unfold pyStrip
  rw [dropTrailing_eq_nil_iff]
  constructor
  · intro h c hc
    rcases (List.mem_append.mp
      (by rw [List.takeWhile_append_dropWhile pyIsSpace l]; exact hc :
        c ∈ l.takeWhile pyIsSpace ++ l.dropWhile pyIsSpace)) with hm | hm
    · exact List.mem_takeWhile_imp hm
    · exact h c hm
  · exact fun h c hc => h c ((List.dropWhile_sublist pyIsSpace).subset hc)

theorem pyStrip_pad {pre m suf : List Char}
    (hpre : ∀ c ∈ pre, pyIsSpace c = true)
    (hsuf : ∀ c ∈ suf, pyIsSpace c = true) :
    pyStrip (pre ++ (m ++ suf)) = pyStrip m := by
  unfold pyStrip
  rw [List.dropWhile_append_of_pos hpre]
  rw [List.dropWhile_append]
  split
  · rename_i hm
    rw [List.isEmpty_iff] at hm
    have h1 : List.dropWhile pyIsSpace suf = [] :=
      List.dropWhile_eq_nil_iff.mpr hsuf
    rw [h1, hm]
  · exact dropTrailing_append_pos hsuf

theorem pyStrip_filter_pyStrip {p : Char → Bool} {l : List Char}
    (hp : ∀ c, pyIsSpace c = true → p c = true) :
    pyStrip ((pyStrip l).filter p) = pyStrip (l.filter p) := by
  obtain ⟨pre, suf, hl, hpre, hsuf⟩ := pyStrip_decomp l
  conv_rhs => rw [hl]
  rw [List.filter_append, List.filter_append]
  rw [List.filter_eq_self.mpr (fun a ha => hp a (hpre a ha))]
  rw [List.filter_eq_self.mpr (fun a ha => hp a (hsuf a ha))]
  exact (pyStrip_pad hpre hsuf).symm

theorem replaceGo_no_occur {pat rep s : List Char} {fuel : Nat}
    (h : occursIn pat s = false) : replaceGo pat rep fuel s = s := by
  induction fuel generalizing s with
  | zero => rfl
  | succ n ih =>
    cases s with
    | nil => rfl
    | cons c rest =>
      unfold occursIn at h
      rw [Bool.or_eq_false_iff] at h
      obtain ⟨h1, h2⟩ := h
      have hlm : litMatch pat (c :: rest) = none := by
        cases hx : litMatch pat (c :: rest) with
        | none => rfl
        | some r => rw [hx] at h1; exact absurd h1 (by simp)
      unfold replaceGo
      rw [hlm]
      rw [ih h2]

theorem pyReplace_no_occur {s pat rep : String}
    (h : occursIn pat.data s.data = false) : pyReplace s pat rep = s := by
  unfold pyReplace pyReplaceL
  split
  · rfl
  · rw [replaceGo_no_occur h]

/-! ### Unfolding lemmas for the driver -/

theorem resolveVersion_none (cmake : Option String) :
    resolveVersion cmake none = parse_cmake_version cmake := rfl

theorem resolveVersion_empty (cmake : Option String) :
    resolveVersion cmake (some "") = parse_cmake_version cmake := by
  simp [resolveVersion]

theorem resolveVersion_valid {s : String} (cmake : Option String)
    (hs : s ≠ "") (hv : validate_version s = true) :
    resolveVersion cmake (some s) = .ok s := by
  simp [resolveVersion, hs, hv]

theorem resolveVersion_invalid {s : String} (cmake : Option String)
    (hs : s ≠ "") (hv : validate_version s = false) :
    resolveVersion cmake (some s) = .error (.InvalidVersionFormat s) := by
  simp [resolveVersion, hs, hv]

theorem update_err_version {w : World} {v? : Option String} {e : Err}
    (h : resolveVersion w.cmake v? = .error e) :
    update_doxyfile w v? = .error e := by
  unfold update_doxyfile
  rw [h]

theorem update_err_name {w : World} {v? : Option String} {v : String} {e : Err}
    (hv : resolveVersion w.cmake v? = .ok v)
    (hn : parse_project_name w.readme = .error e) :
    update_doxyfile w v? = .error e := by
  unfold update_doxyfile
  rw [hv, hn]

theorem update_no_target {w : World} {v? : Option String} {v n : String}
    (hv : resolveVersion w.cmake v? = .ok v)
    (hn : parse_project_name w.readme = .ok n)
    (ht : w.target = none) :
    update_doxyfile w v? = .error .TargetFileMissing := by
  unfold update_doxyfile
  rw [hv, hn, ht]

theorem update_ok {w : World} {v? : Option String} {v n content : String}
    (hv : resolveVersion w.cmake v? = .ok v)
    (hn : parse_project_name w.readme = .ok n)
    (ht : w.target = some content) :
    update_doxyfile w v? = .ok { w with
      target := some (pyReplace (pyReplace content versionToken v)
        nameToken n) } := by
  unfold update_doxyfile
  rw [hv, hn, ht]

/-! ### Character-level helpers -/

theorem ver3_chars {v : List Char} (h : Ver3 v) :
    ∀ c ∈ v, c.isDigit = true ∨ c = '.' := by
  obtain ⟨a, b, cc, ha, hb, hc, hv⟩ := h
  subst hv
  intro x hx
  have ha2 := (digitsNE_iff.mp ha).2
  have hb2 := (digitsNE_iff.mp hb).2
  have hc2 := (digitsNE_iff.mp hc).2
  simp only [List.mem_append, List.mem_cons] at hx
  rcases hx with (hx | hx | hx) | hx | hx
  · exact Or.inl (ha2 x hx)
  · exact Or.inr hx
  · exact Or.inl (hb2 x hx)
  · exact Or.inr hx
  · exact Or.inl (hc2 x hx)

theorem versionShape_chars {l : List Char} (h : VersionShape l) :
    ∀ c ∈ l, c.isDigit = true ∨ c = '.' := by
  rcases h with h | ⟨v, d, hv, hd, heq⟩
  · exact ver3_chars h
  · subst heq
    intro x hx
    simp only [List.mem_append, List.mem_cons] at hx
    rcases hx with hx | hx | hx
    · exact ver3_chars hv x hx
    · exact Or.inr hx
    · exact Or.inl ((digitsNE_iff.mp hd).2 x hx)

theorem space_not_hash {c : Char} (h : pyIsSpace c = true) :
    (decide (c ≠ '#')) = true := by
  rw [decide_eq_true_eq]
  intro hc
  subst hc
  exact absurd h (by decide)

/-! ### Claims -/

/-- C1: when the target file exists and the version and project name both
resolve, `update_doxyfile` writes back the target content with every
literal occurrence of `%PROJECT_VERSION%` replaced by the resolved
version and every literal occurrence of `%PROJECT_NAME%` replaced by the
resolved name, as a full overwrite of the same path; in particular a
target containing neither placeholder token is written back unchanged. -/
theorem patch_replaces_placeholder_tokens (w : World) (v? : Option String)
    (content v n : String)
    (ht : w.target = some content)
    (hv : resolveVersion w.cmake v? = .ok v)
    (hn : parse_project_name w.readme = .ok n) :
    update_doxyfile w v? = .ok { w with
      target := some (pyReplace (pyReplace content versionToken v)
        nameToken n) } ∧
    (occursIn versionToken.data content.data = false →
      occursIn nameToken.data content.data = false →
      update_doxyfile w v? = .ok { w with target := some content }) := by
  refine ⟨update_ok hv hn ht, fun h1 h2 => ?_⟩
  rw [update_ok hv hn ht, pyReplace_no_occur h1, pyReplace_no_occur h2]

/-- C1 witness: patching `Version: %PROJECT_VERSION%, Name:
%PROJECT_NAME%` with version `2.0.0` and name `Demo` yields
`Version: 2.0.0, Name: Demo`. -/
theorem patch_replaces_placeholder_tokens_witness :
    update_doxyfile
        ⟨some "Version: %PROJECT_VERSION%, Name: %PROJECT_NAME%", none,
          some "# Demo\n"⟩ (some "2.0.0") =
      .ok ⟨some "Version: 2.0.0, Name: Demo", none, some "# Demo\n"⟩ := by
  have h := (patch_replaces_placeholder_tokens
    ⟨some "Version: %PROJECT_VERSION%, Name: %PROJECT_NAME%", none,
      some "# Demo\n"⟩
    (some "2.0.0") "Version: %PROJECT_VERSION%, Name: %PROJECT_NAME%"
    "2.0.0" "Demo" rfl rfl rfl).1
  rw [h]
  rfl

/-- C2: when version resolution or project-name resolution fails,
`update_doxyfile` raises (returns an error) and the target file's content
is unchanged. -/
theorem resolution_failure_aborts_without_write (w : World)
    (v? : Option String)
    (h : (∃ e, resolveVersion w.cmake v? = .error e) ∨
         (∃ e, parse_project_name w.readme = .error e)) :
    (∃ e, update_doxyfile w v? = .error e) ∧ finalTarget w v? = w.target := by
  have hupd : ∃ e, update_doxyfile w v? = .error e := by
    rcases h with ⟨e, he⟩ | ⟨e, he⟩
    · exact ⟨e, update_err_version he⟩
    · cases hv : resolveVersion w.cmake v? with
      | error e2 => exact ⟨e2, update_err_version hv⟩
      | ok v => exact ⟨e, update_err_name hv he⟩
  obtain ⟨e, he⟩ := hupd
  refine ⟨⟨e, he⟩, ?_⟩
  unfold finalTarget
  rw [he]

/-- C2 witness: explicit version `bad-version` fails validation and the
target file `x` is untouched. -/
theorem resolution_failure_aborts_without_write_witness :
    (∃ e, update_doxyfile ⟨some "x", none, some "# N\n"⟩
      (some "bad-version") = .error e) ∧
    finalTarget ⟨some "x", none, some "# N\n"⟩ (some "bad-version") =
      some "x" := by
  have h := resolution_failure_aborts_without_write
    ⟨some "x", none, some "# N\n"⟩ (some "bad-version")
    (Or.inl ⟨.InvalidVersionFormat "bad-version", rfl⟩)
  exact h

/-- C3 counterexample: the claim says a missing target is reported as
`TargetFileMissing` before any descriptor is read, but with both the
target and the build descriptor missing (no explicit version) the script
reports the missing descriptor instead — the target-existence check runs
last, not first. -/
theorem target_check_not_first_counterexample :
    update_doxyfile ⟨none, none, some "# X\n"⟩ none =
      .error .SourceFileMissingCMake ∧
    Err.SourceFileMissingCMake ≠ Err.TargetFileMissing :=
  ⟨rfl, by decide⟩

/-- C3 (amended): a missing target file is reported as
`TargetFileMissing` only after version and project-name resolution have
both succeeded; the target-existence check happens after the descriptor
reads. -/
theorem target_missing_reported_after_resolution (w : World)
    (v? : Option String) (v n : String)
    (ht : w.target = none)
    (hv : resolveVersion w.cmake v? = .ok v)
    (hn : parse_project_name w.readme = .ok n) :
    update_doxyfile w v? = .error .TargetFileMissing :=
  update_no_target hv hn ht

/-- C3 witness: missing target with a valid explicit version and a
readable readme is reported as `TargetFileMissing`. -/
theorem target_missing_reported_after_resolution_witness :
    update_doxyfile ⟨none, none, some "# X\n"⟩ (some "1.2.3") =
      .error .TargetFileMissing :=
  target_missing_reported_after_resolution ⟨none, none, some "# X\n"⟩
    (some "1.2.3") "1.2.3" "X" rfl rfl rfl

/-- C4 counterexample: `validate_version` ACCEPTS `"1.2.3\n"`, a string
with a trailing newline that is not of the exact `D.D.D`/`D.D.D.D` shape
(Python's `$` matches just before a final newline), contradicting the
claim that every such string is rejected. -/
theorem validate_accepts_trailing_newline_counterexample :
    validate_version "1.2.3\n" = true ∧ ¬ VersionShape ("1.2.3\n".data) := by
  refine ⟨by decide, fun h => ?_⟩
  have hc := versionShape_chars h '\n' (by decide)
  rcases hc with h1 | h1
  · exact absurd h1 (by decide)
  · exact absurd h1 (by decide)

/-- C4 (amended): `validate_version` accepts exactly the strings of shape
`D.D.D` or `D.D.D.D` (each `D` one or more digits) optionally followed by
one trailing newline, and rejects everything else. -/
theorem validate_version_characterization (s : String) :
    validate_version s = true ↔
      (VersionShape s.data ∨
        ∃ m : List Char, s.data = m ++ ['\n'] ∧ VersionShape m) :=
  ⟨validate_sound, validate_complete⟩

/-- C5: with no fix-level declaration present, resolving the version from
a build descriptor returns exactly the three-component value captured by
the case-insensitive `PROJECT(... VERSION X.Y.Z ...)` search when it
matches, and fails with `VersionNotFound` when it does not. -/
theorem cmake_version_resolution (content : String)
    (hnofix : searchCppFix content.data = none) :
    (∀ v3 : List Char, searchProjectVersion content.data = some v3 →
      parse_cmake_version (some content) = .ok ⟨v3⟩) ∧
    (searchProjectVersion content.data = none →
      parse_cmake_version (some content) = .error .VersionNotFound) := by
  constructor
  · intro v3 h
    have h2 := parse_cmake_ok h
    rw [hnofix] at h2
    simpa [composeVersion] using h2
  · exact parse_cmake_notfound

/-- C5 witness: `project(Foo VERSION 1.2.3)` resolves to `"1.2.3"`. -/
theorem cmake_version_resolution_witness :
    parse_cmake_version (some "project(Foo VERSION 1.2.3)") = .ok "1.2.3" :=
  (cmake_version_resolution "project(Foo VERSION 1.2.3)" (by decide)).1
    ("1.2.3".data) (by decide)

/-- C6 counterexample: the fix-level search is case-SENSITIVE (`re.search`
is called without `re.IGNORECASE`), so a lowercase `set(VERSION_CPPFIX
"4")` is ignored and the result is `"1.2.3"`, not `"1.2.3.4"` as the
claim states. -/
theorem lowercase_cppfix_ignored_counterexample :
    parse_cmake_version
        (some "project(Foo VERSION 1.2.3)\nset(VERSION_CPPFIX \"4\")") =
      .ok "1.2.3" ∧
    ("1.2.3" : String) ≠ "1.2.3.4" :=
  ⟨rfl, by decide⟩

/-- C6 (amended): the fix level is appended as a fourth dotted component
exactly when the case-sensitive `SET(VERSION_CPPFIX "N")` pattern
matches (so with uppercase `SET`, `project(Foo VERSION 1.2.3)` plus
`SET(VERSION_CPPFIX "4")` yields `"1.2.3.4"`). -/
theorem uppercase_cppfix_appended (content : String) (v3 fix : List Char)
    (hp : searchProjectVersion content.data = some v3)
    (hf : searchCppFix content.data = some fix) :
    parse_cmake_version (some content) = .ok ⟨v3 ++ '.' :: fix⟩ := by
  have h2 := parse_cmake_ok hp
  rw [hf] at h2
  simpa [composeVersion] using h2

/-- C6 witness: with uppercase `SET(VERSION_CPPFIX "4")` the resolved
version is `"1.2.3.4"`. -/
theorem uppercase_cppfix_appended_witness :
    parse_cmake_version
        (some "project(Foo VERSION 1.2.3)\nSET(VERSION_CPPFIX \"4\")") =
      .ok "1.2.3.4" :=
  uppercase_cppfix_appended
    "project(Foo VERSION 1.2.3)\nSET(VERSION_CPPFIX \"4\")"
    ("1.2.3".data) ("4".data) (by decide) (by decide)

/-- C7 counterexample: the script removes ALL `'#'` characters from the
first readme line, not just the leading heading markers: a first line of
`# C# Tools` resolves to `"C Tools"`, not `"C# Tools"`. -/
theorem project_name_strips_all_hashes_counterexample :
    parse_project_name (some "# C# Tools\n") = .ok "C Tools" ∧
    ("C Tools" : String) ≠ "C# Tools" :=
  ⟨rfl, by decide⟩

/-- C7 (amended): project-name resolution consults ONLY the first line of
the readme (even when that line is empty or not a heading), removes every
`'#'` character from it — interior ones included — and strips surrounding
whitespace; it fails with `EmptyProjectName` exactly when the first line
consists solely of `'#'` and whitespace characters. -/
theorem project_name_characterization (content : String) :
    (∀ nm : String, parse_project_name (some content) = .ok nm →
      nm.data = pyStrip ((readline1 content.data).filter (fun c => c ≠ '#')) ∧
      nm.data ≠ []) ∧
    (parse_project_name (some content) = .error .EmptyProjectName ↔
      ∀ c ∈ readline1 content.data, c = '#' ∨ pyIsSpace c = true) := by
  have hred : parse_project_name (some content) =
      if (pyStrip ((pyStrip (readline1 content.data)).filter
          (fun c => c ≠ '#'))).isEmpty = true then
        .error .EmptyProjectName
      else
        .ok ⟨pyStrip ((pyStrip (readline1 content.data)).filter
          (fun c => c ≠ '#'))⟩ := rfl
  have hcomm : pyStrip ((pyStrip (readline1 content.data)).filter
      (fun c => c ≠ '#')) =
      pyStrip ((readline1 content.data).filter (fun c => c ≠ '#')) :=
    pyStrip_filter_pyStrip (fun c hc => space_not_hash hc)
  constructor
  · intro nm h
    rw [hred] at h
    split at h
    · exact absurd h (by simp)
    · rename_i hne
      injection h with h2
      constructor
      · rw [← h2]
        exact hcomm
      · intro hnil
        apply hne
        rw [List.isEmpty_iff]
        rw [← h2] at hnil
        exact hnil
  · constructor
    · intro h
      rw [hred] at h
      split at h
      · rename_i hemp
        rw [List.isEmpty_iff, hcomm, pyStrip_eq_nil_iff] at hemp
        intro c hc
        by_cases hch : c = '#'
        · exact Or.inl hch
        · refine Or.inr (hemp c ?_)
          rw [List.mem_filter]
          exact ⟨hc, by rw [decide_eq_true_eq]; exact hch⟩
      · exact absurd h (by simp)
    · intro hall
      rw [hred]
      have hemp : (pyStrip ((pyStrip (readline1 content.data)).filter
          (fun c => c ≠ '#'))).isEmpty = true := by
        rw [List.isEmpty_iff, hcomm, pyStrip_eq_nil_iff]
        intro c hc
        rw [List.mem_filter] at hc
        obtain ⟨hcl, hcp⟩ := hc
        rcases hall c hcl with h1 | h1
        · rw [decide_eq_true_eq] at hcp
          exact absurd h1 hcp
        · exact h1
      rw [if_pos hemp]

/-- C7 witness: a first line of `# MyProject` resolves to `"MyProject"`,
which is exactly the stripped, hash-free first line and is nonempty. -/
theorem project_name_characterization_witness :
    ("MyProject" : String).data =
      pyStrip ((readline1 "# MyProject\n".data).filter (fun c => c ≠ '#')) ∧
    ("MyProject" : String).data ≠ [] :=
  (project_name_characterization "# MyProject\n").1 "MyProject" rfl

/-- C8 counterexample: for the explicitly supplied version string `""`
(which is falsy in Python) the outcome DOES depend on the build
descriptor: with the descriptor absent the run fails with
`SourceFileMissingCMake`, while with a descriptor declaring a version it
succeeds — two filesystems differing only in `CMakeLists.txt` give
different results. -/
theorem empty_version_depends_on_cmake_counterexample :
    update_doxyfile ⟨some "x", none, some "# N\n"⟩ (some "") =
      .error .SourceFileMissingCMake ∧
    update_doxyfile ⟨some "x", some "project(A VERSION 1.2.3)", some "# N\n"⟩
        (some "") =
      .ok ⟨some "x", some "project(A VERSION 1.2.3)", some "# N\n"⟩ ∧
    (Except.error Err.SourceFileMissingCMake ≠
      (Except.ok ⟨some "x", some "project(A VERSION 1.2.3)", some "# N\n"⟩ :
        Except Err World)) := by
  refine ⟨rfl, rfl, fun h => ?_⟩
  exact Except.noConfusion h

/-- C8 (amended): for every NON-EMPTY explicitly supplied version string,
the outcome (error or final target content) is independent of the
contents or existence of the build descriptor. -/
theorem nonempty_explicit_version_independent_of_cmake
    (s : String) (hs : s ≠ "") (t r c1 c2 : Option String) :
    (update_doxyfile ⟨t, c1, r⟩ (some s)).map World.target =
    (update_doxyfile ⟨t, c2, r⟩ (some s)).map World.target := by
  cases hval : validate_version s with
  | false =>
    rw [update_err_version (w := ⟨t, c1, r⟩)
        (resolveVersion_invalid c1 hs hval),
      update_err_version (w := ⟨t, c2, r⟩)
        (resolveVersion_invalid c2 hs hval)]
  | true =>
    have h1 := resolveVersion_valid c1 hs hval
    have h2 := resolveVersion_valid c2 hs hval
    cases hn : parse_project_name r with
    | error e =>
      rw [update_err_name (w := ⟨t, c1, r⟩) h1 hn,
        update_err_name (w := ⟨t, c2, r⟩) h2 hn]
    | ok n =>
      cases t with
      | none =>
        rw [update_no_target (w := ⟨none, c1, r⟩) h1 hn rfl,
          update_no_target (w := ⟨none, c2, r⟩) h2 hn rfl]
      | some content =>
        rw [update_ok (w := ⟨some content, c1, r⟩) h1 hn rfl,
          update_ok (w := ⟨some content, c2, r⟩) h2 hn rfl]
        rfl

/-- C8 witness: with explicit version `9.9.9`, a missing descriptor and a
garbage descriptor give the same final target content. -/
theorem nonempty_explicit_version_independent_of_cmake_witness :
    (update_doxyfile ⟨some "A %PROJECT_VERSION% B", none, some "# N\n"⟩
        (some "9.9.9")).map World.target =
    (update_doxyfile
        ⟨some "A %PROJECT_VERSION% B", some "garbage", some "# N\n"⟩
        (some "9.9.9")).map World.target :=
  nonempty_explicit_version_independent_of_cmake "9.9.9" (by decide)
    (some "A %PROJECT_VERSION% B") (some "# N\n") none (some "garbage")

/-- C9: supplying the empty string as the explicit version argument is
falsy in Python (`if version and ...` / `if not version:`), so the run is
identical to supplying no version at all — the version is derived from
the build descriptor and no `InvalidVersionFormat` check is applied to
the empty string. -/
theorem empty_version_falls_back_to_cmake (w : World) :
    update_doxyfile w (some "") = update_doxyfile w none := by
  unfold update_doxyfile
  rw [resolveVersion_empty, resolveVersion_none]

/-- C10: the defensive re-validation inside `_parse_cmake_version` can
never fail: every invocation either returns a version that passes
`validate_version`, or fails with `VersionNotFound` or a missing
descriptor — the `InvalidVersionFormat` branch is unreachable. -/
theorem defensive_revalidation_never_fails (cmake : Option String) :
    (∃ v : String, parse_cmake_version cmake = .ok v ∧
      validate_version v = true) ∨
    parse_cmake_version cmake = .error .VersionNotFound ∨
    parse_cmake_version cmake = .error .SourceFileMissingCMake := by
  cases cmake with
  | none => exact Or.inr (Or.inr rfl)
  | some content =>
    cases hp : searchProjectVersion content.data with
    | none => exact Or.inr (Or.inl (parse_cmake_notfound hp))
    | some v3 =>
      exact Or.inl ⟨⟨composeVersion v3 (searchCppFix content.data)⟩,
        parse_cmake_ok hp, compose_validate hp⟩
